import Mathlib

set_option exponentiation.threshold 4096

/-!
Shallow embedding of the benefits-app core logic (src/App.tsx and the shared
type declarations): the address validator `validateSearchInput`, the recency
classifier `isRecentUpdate`, the badge aggregator `computeCategoryBadges`,
and the benefit filter/sort engine (`filteredBenefits`, `displayBenefits`).

Strings are modelled as Lean `String` (a structure over `List Char`); the
JavaScript string helpers used by the source (`trim`, `split(/\s+/)`,
`split('.')`, `includes`, `endsWith`) are embedded below over `List Char`
with JavaScript whitespace semantics.
-/

/-- Characters treated as whitespace by JavaScript `String.prototype.trim`
and by the `\s` regex class: WhiteSpace (TAB, VT, FF, SP, NBSP, ZWNBSP and
the Zs space separators) together with the LineTerminator set (LF, CR, LS,
PS). -/
def jsWsChars : List Char :=
  [ '\t', '\n', '\x0b', '\x0c', '\r', ' ', '\u00a0', '\u1680',
    '\u2000', '\u2001', '\u2002', '\u2003', '\u2004', '\u2005', '\u2006',
    '\u2007', '\u2008', '\u2009', '\u200a', '\u2028', '\u2029', '\u202f',
    '\u205f', '\u3000', '\ufeff' ]

/-- Whether a character is JavaScript whitespace. -/
def jsWs (c : Char) : Bool :=
  decide (c ∈ jsWsChars)

/-- JavaScript `String.prototype.trim` on the character list: strip trailing
whitespace, then leading whitespace. -/
def jsTrimL (l : List Char) : List Char :=
  ((l.reverse.dropWhile jsWs).reverse).dropWhile jsWs

/-- Trimmed form of a string, as a string (what `text.trim()` passes on). -/
def trimOf (s : String) : String :=
  String.mk (jsTrimL s.data)

/-- Flush a (reversed) pending token in front of an already produced token
list; an empty pending token produces nothing. -/
def flushAcc (acc : List Char) (rest : List (List Char)) : List (List Char) :=
  if acc = [] then rest else acc.reverse :: rest

/-- Worker for `splitWs`: `acc` holds the characters of the token currently
being read, in reverse. -/
def splitWsAux : List Char → List Char → List (List Char)
  | [], acc => flushAcc acc []
  | c :: cs, acc =>
    if jsWs c then flushAcc acc (splitWsAux cs []) else splitWsAux cs (c :: acc)

/-- JavaScript `split(/\s+/)` on a trimmed string: the maximal runs of
non-whitespace characters, in order. (On a trimmed input `split(/\s+/)`
produces no empty fragments, so dropping empties is faithful.) -/
def splitWs (l : List Char) : List (List Char) :=
  splitWsAux l []

/-- Whether `pre` is a prefix of `l`, by character equality. -/
def isPrefixCL : List Char → List Char → Bool
  | [], _ => true
  | _ :: _, [] => false
  | p :: ps, c :: cs => p = c && isPrefixCL ps cs

/-- JavaScript `String.prototype.includes`: `needle` occurs contiguously
somewhere in `hay`. -/
def containsSub (hay needle : List Char) : Bool :=
  match hay with
  | [] => needle.isEmpty
  | _ :: t => isPrefixCL needle hay || containsSub t needle

/-- Whether a character lies in the Hangul syllable block matched by the
regex class used in the source. -/
def isHangul (c : Char) : Bool :=
  decide ('가' ≤ c ∧ c ≤ '힣')

/-- Whether a character is one of the first-level suffixes of the typo
pattern. -/
def sidoChar (c : Char) : Bool :=
  c = '시' || c = '도'

/-- Whether a character is one of the second-level suffixes of the typo
pattern. -/
def sigunguChar (c : Char) : Bool :=
  c = '시' || c = '군' || c = '구'

/-- Whether the whole list matches the regex body
`[가-힣]+(시|도)[가-힣]+(시|군|구)` exactly: a nonempty Hangul run, a first
suffix at position `i`, a nonempty Hangul run, and a final second suffix.
Existence over all positions `i` of the first suffix mirrors regex
matching. -/
def typoCore (l : List Char) : Bool :=
  let n := l.length
  decide (1 ≤ n) && sigunguChar (l.getD (n - 1) 'x') &&
    (List.range n).any (fun i =>
      decide (1 ≤ i) && decide (i + 3 ≤ n) &&
      (l.take i).all isHangul &&
      sidoChar (l.getD i 'x') &&
      ((l.drop (i + 1)).take (n - 2 - i)).all isHangul)

/-- JavaScript `typoRegex.test(part)` for the source regex
`[가-힣]+(시|도)[가-힣]+(시|군|구)$`: the match may begin at any position
but must end at the end of the token. -/
def typoTest (l : List Char) : Bool :=
  (List.range (l.length + 1)).any (fun s => typoCore (l.drop s))

/-- Error message of validation rule 1 (empty input). -/
def requiredMsg : String := "주소를 입력해주세요."

/-- Error message of validation rules 2 and 3 (no space / concatenation
typo); the source uses the same string for both branches. -/
def spacingMsg : String := "띄어쓰기를 정확히 입력해주세요. (예: 경기도 성남시 수정구)"

/-- Error message of validation rule 4 (fewer than two tokens). -/
def bothLevelsMsg : String := "시/도와 시/군/구를 모두 입력해주세요. (예: 서울시 송파구)"

/-- Error message of validation rule 5 (bare province and city pair). -/
def districtMsg : String := "구 단위까지 상세하게 입력해주세요. (예: 경기도 성남시 분당구)"

/-- The source's `for (const part of parts)` loop over the typo regex,
returning at the first matching token. -/
def typoLoop : List (List Char) → Bool
  | [] => false
  | p :: ps => if typoTest p then true else typoLoop ps

/-- Embedding of `validateSearchInput` (src/App.tsx:753): the source returns
`false` after `setErrorMsg(msg)` on failure and `true` on success, embedded
here as `some msg` on failure and `none` on success. -/
def validateSearchInput (text : String) : Option String :=
  let trimmed := jsTrimL text.data
  if trimmed = [] then some requiredMsg
  else if ' ' ∉ trimmed then some spacingMsg
  else
    let parts := splitWs trimmed
    if typoLoop parts then some spacingMsg
    else if parts.length < 2 then some bothLevelsMsg
    else
      match parts with
      | [_, p2] => if p2.getLast? = some '시' then some districtMsg else none
      | _ => none

/-- Embedding of `handleSubmit` (src/App.tsx:802): the search callback is
invoked with `input.trim()` exactly when validation succeeds; the result is
the issued query, if any. -/
def handleSubmitModel (input : String) : Option String :=
  if validateSearchInput input = none then some (trimOf input) else none

example : validateSearchInput "" = some requiredMsg := by decide
example : validateSearchInput "서울시송파구" = some spacingMsg := by decide
example : validateSearchInput "경기도 성남시" = some districtMsg := by decide
example : validateSearchInput "경기도 성남시 수정구" = none := by decide
example : validateSearchInput "경기도성남시 수정구" = some spacingMsg := by decide
example : validateSearchInput "서울시 송파구" = none := by decide
example : handleSubmitModel " 서울시 송파구 " = some "서울시 송파구" := by decide

/-- JavaScript `String.prototype.split` with a single-character separator:
the fragments between occurrences of the separator, empty fragments
included; the empty string yields `[""]`. -/
def splitOnChar (sep : Char) : List Char → List (List Char)
  | [] => [[]]
  | c :: cs =>
    if c = sep then [] :: splitOnChar sep cs
    else
      match splitOnChar sep cs with
      | [] => [[c]]
      | t :: ts => (c :: t) :: ts

/-- Finite IEEE binary64 values carry their exact value `m * 2^k` in the
canonical form the rounding below produces (zero is `(0, 0)`); the two
infinities are explicit constructors, and NaN is `none` at every use
site. -/
inductive JsNum where
  | finite (m : Int) (k : Int)
  | posInf
  | negInf
deriving DecidableEq

/-- Value of a hexadecimal digit character, if any. -/
def hexDigitVal (c : Char) : Option Nat :=
  if '0' ≤ c ∧ c ≤ '9' then some (c.toNat - 48)
  else if 'a' ≤ c ∧ c ≤ 'f' then some (c.toNat - 87)
  else if 'A' ≤ c ∧ c ≤ 'F' then some (c.toNat - 55)
  else none

/-- Value of a nonempty run of digits in the given base; `none` when the
run is empty or any character is out of range for the base. -/
def digitsVal (base : Nat) (l : List Char) : Option Nat :=
  if l = [] then none
  else
    l.foldl
      (fun acc c =>
        match acc, hexDigitVal c with
        | some n, some d => if d < base then some (n * base + d) else none
        | _, _ => none)
      (some 0)

/-- Split a list at the first character satisfying the predicate: the part
before it and, when it occurs, the part after it. -/
def breakAt (p : Char → Bool) : List Char → List Char × Option (List Char)
  | [] => ([], none)
  | c :: cs =>
    if p c then ([], some cs)
    else
      let r := breakAt p cs
      (c :: r.1, r.2)

/-- Round the nonnegative rational `num / den` to the nearest integer,
ties to even. -/
def roundHalfEvenNat (num den : Nat) : Nat :=
  let f := num / den
  let r := num % den
  if 2 * r < den then f
  else if den < 2 * r then f + 1
  else if f % 2 = 0 then f else f + 1

/-- Whether `2^j ≤ a / b`, by exact integer arithmetic. -/
def twoPowLeRat (j : Int) (a b : Nat) : Bool :=
  if 0 ≤ j then decide (b * 2 ^ j.toNat ≤ a) else decide (b ≤ a * 2 ^ (-j).toNat)

/-- Bounded binary search for the binary magnitude `⌊log2 (a/b)⌋` under
the invariant `2^lo ≤ a/b < 2^hi`. -/
def log2SearchRat (a b : Nat) : Nat → Int → Int → Int
  | 0, lo, _ => lo
  | fuel + 1, lo, hi =>
    if hi ≤ lo + 1 then lo
    else
      let mid := Int.fdiv (lo + hi) 2
      if twoPowLeRat mid a b then log2SearchRat a b fuel mid hi
      else log2SearchRat a b fuel lo mid

/-- Round the positive rational `a / b` to the nearest IEEE binary64
value, ties to even: a value at or below half the smallest subnormal
rounds to zero, a rounded magnitude reaching `2^1024` overflows to
infinity, and otherwise the result is the exact double `m * 2^e`, the
exponent clamped at the subnormal floor `-1074`. -/
def roundPosToDouble (a b : Nat) : JsNum :=
  if a * 2 ^ 1075 ≤ b then .finite 0 0
  else if 2 ^ 1024 * b ≤ a then .posInf
  else
    let e2 := log2SearchRat a b 15 (-1075) 1024
    let e : Int := if e2 - 52 < -1074 then -1074 else e2 - 52
    let m : Nat :=
      if 0 ≤ e then roundHalfEvenNat a (b * 2 ^ e.toNat)
      else roundHalfEvenNat (a * 2 ^ (-e).toNat) b
    if 0 ≤ e ∧ 2 ^ 1024 ≤ m * 2 ^ e.toNat then .posInf
    else .finite (m : Int) e

/-- Round the exact rational `num / den` (positive `den`) to the nearest
double; negative values round symmetrically (IEEE rounding is
sign-symmetric, and a negative zero behaves like zero everywhere this
model looks). -/
def roundToDouble (num : Int) (den : Nat) : JsNum :=
  if num = 0 then .finite 0 0
  else if 0 < num then roundPosToDouble num.toNat den
  else
    match roundPosToDouble num.natAbs den with
    | .finite m k => .finite (-m) k
    | _ => .negInf

/-- Double value of an integer. -/
def jsNumOfInt (n : Int) : JsNum :=
  roundToDouble n 1

/-- Exact nonnegative value of an unsigned numeric literal: a rational
`a / b`, or infinity. -/
inductive PreNum where
  | val (a : Nat) (b : Nat)
  | inf
deriving DecidableEq

/-- Value `M * 10^(e - fl)` of a decimal mantissa with integer value `M`,
`fl` fraction digits and decimal exponent `e`, as an exact rational. -/
def decValue (M : Nat) (fl : Nat) (e : Int) : PreNum :=
  let E := e - (fl : Int)
  if 0 ≤ E then .val (M * 10 ^ E.toNat) 1 else .val M (10 ^ (-E).toNat)

/-- Parse `StrUnsignedDecimalLiteral`: the literal `Infinity`, or decimal
digits with an optional fraction part and an optional exponent part (the
digits before or after the decimal point may be absent, not both). -/
def parseUnsigned (u : List Char) : Option PreNum :=
  if u = ['I', 'n', 'f', 'i', 'n', 'i', 't', 'y'] then some .inf
  else
    let me := breakAt (fun c => c = 'e' || c = 'E') u
    let expVal : Option Int :=
      match me.2 with
      | none => some 0
      | some ('+' :: ds) => (digitsVal 10 ds).map (fun n => (n : Int))
      | some ('-' :: ds) => (digitsVal 10 ds).map (fun n => -(n : Int))
      | some ds => (digitsVal 10 ds).map (fun n => (n : Int))
    match expVal with
    | none => none
    | some e =>
      let mf := breakAt (fun c => c = '.') me.1
      match mf.2 with
      | none => (digitsVal 10 mf.1).map (fun n => decValue n 0 e)
      | some f =>
        if mf.1 = [] ∧ f = [] then none
        else
          match (if mf.1 = [] then some 0 else digitsVal 10 mf.1),
              (if f = [] then some 0 else digitsVal 10 f) with
          | some i, some fv => some (decValue (i * 10 ^ f.length + fv) f.length e)
          | _, _ => none

/-- Apply a decimal sign to an unsigned value and round to a double. -/
def applySign (neg : Bool) : PreNum → JsNum
  | .val a b => if neg then roundToDouble (-(a : Int)) b else roundToDouble (a : Int) b
  | .inf => if neg then .negInf else .posInf

/-- JavaScript `Number(string)`, per the `StringNumericLiteral` grammar:
surrounding whitespace is stripped; an empty remainder is `+0`; the
`0x`/`0X`, `0o`/`0O` and `0b`/`0B` prefixes introduce unsigned
hexadecimal, octal and binary integers; otherwise an optionally signed
decimal literal — digits with optional fraction and exponent parts, or
`Infinity` — is read. The literal's exact mathematical value is rounded
to the nearest IEEE binary64 value (ties to even, overflow to the
infinities); any other string is NaN, embedded as `none`. -/
def jsNumber (l : List Char) : Option JsNum :=
  match jsTrimL l with
  | [] => some (.finite 0 0)
  | '0' :: 'x' :: rest => (digitsVal 16 rest).map (fun n => jsNumOfInt (n : Int))
  | '0' :: 'X' :: rest => (digitsVal 16 rest).map (fun n => jsNumOfInt (n : Int))
  | '0' :: 'o' :: rest => (digitsVal 8 rest).map (fun n => jsNumOfInt (n : Int))
  | '0' :: 'O' :: rest => (digitsVal 8 rest).map (fun n => jsNumOfInt (n : Int))
  | '0' :: 'b' :: rest => (digitsVal 2 rest).map (fun n => jsNumOfInt (n : Int))
  | '0' :: 'B' :: rest => (digitsVal 2 rest).map (fun n => jsNumOfInt (n : Int))
  | '+' :: u => (parseUnsigned u).map (applySign false)
  | '-' :: u => (parseUnsigned u).map (applySign true)
  | u => (parseUnsigned u).map (applySign false)

/-- Day number of the civil date `y-m-d` (month `1..12`) counted from
1970-01-01, the day-numbering the ECMAScript `Date` model uses; the day
component may lie outside its calendar range and simply shifts the result,
exactly as in `MakeDay`. -/
def daysFromCivil (y m d : Int) : Int :=
  let y1 := if m ≤ 2 then y - 1 else y
  let era := Int.fdiv y1 400
  let yoe := y1 - era * 400
  let mp := Int.fmod (m + 9) 12
  let doy := Int.fdiv (153 * mp + 2) 5 + d - 1
  let doe := yoe * 365 + Int.fdiv yoe 4 - Int.fdiv yoe 100 + doy
  era * 146097 + doe - 719468

/-- Milliseconds per day, the divisor used by the source. -/
def msPerDay : Int := 86400000

/-- ECMAScript truncation toward zero (`ToIntegerOrInfinity`) of the
finite double `m * 2^k`; `Int.tdiv` is the toward-zero division. -/
def jsTrunc (m k : Int) : Int :=
  if 0 ≤ k then m * ((2 ^ k.toNat : Nat) : Int)
  else Int.tdiv m ((2 ^ (-k).toNat : Nat) : Int)

/-- The source's `Number(parts[1]) - 1` in double arithmetic: the exact
difference, re-rounded to the nearest double; the infinities absorb the
subtraction. -/
def jsSub1 : JsNum → JsNum
  | .finite m k =>
    if 0 ≤ k then roundToDouble (m * ((2 ^ k.toNat : Nat) : Int) - 1) 1
    else roundToDouble (m - ((2 ^ (-k).toNat : Nat) : Int)) (2 ^ (-k).toNat)
  | x => x

/-- ECMAScript `new Date(y, m0, d).getTime()` with zero-based month `m0`:
a non-finite component gives an invalid date; finite components are
truncated toward zero; years `0..99` map to `1900..1999`, month overflow
carries into the year, day overflow carries into the month, and the result
is clipped to the representable range (`none` embeds an invalid date).
The calendar arithmetic on the truncated integer components is modelled
exactly over the integers. The model works in local-clock milliseconds
throughout, so the constant local timezone offset cancels between a
constructed date and `now`. -/
def dateCtorMs (y m0 d : JsNum) : Option Int :=
  match y, m0, d with
  | .finite ya yk, .finite ma mk, .finite da dk =>
    let yi := jsTrunc ya yk
    let mi := jsTrunc ma mk
    let di := jsTrunc da dk
    let yr := if 0 ≤ yi ∧ yi ≤ 99 then 1900 + yi else yi
    let ym := yr + Int.fdiv mi 12
    let mn := Int.fmod mi 12
    let dayNum := daysFromCivil ym (mn + 1) 1 + di - 1
    let ms := dayNum * msPerDay
    if ms.natAbs ≤ 8640000000000000 then some ms else none
  | _, _, _ => none

/-- Embedding of `isRecentUpdate` (src/App.tsx:25): split the optional date
string on `.`, require exactly three parts, convert each with `Number`,
build a `Date` from (year, month-1, day), and test that the elapsed
milliseconds to `now` correspond to a day count in the closed interval
`[0, 30]`. A missing string, a wrong shape, or an invalid date yields
`false`. `nowMs` is the current moment in local-clock milliseconds. -/
def isRecentUpdate (dateString : Option String) (nowMs : Int) : Bool :=
  match dateString with
  | none => false
  | some s =>
    match splitOnChar '.' s.data with
    | [p1, p2, p3] =>
      match jsNumber p1, jsNumber p2, jsNumber p3 with
      | some y, some m, some d =>
        match dateCtorMs y (jsSub1 m) d with
        | some t => decide (0 ≤ nowMs - t ∧ nowMs - t ≤ 30 * msPerDay)
        | none => false
      | _, _, _ => false
    | _ => false

/-- Benefit source tag (shared type declarations). -/
inductive BenefitSource where
  | GOV_NATIONAL
  | GOV_LOCAL
  | PRIVATE
deriving DecidableEq

/-- Benefit category tag (shared type declarations); `ALL` doubles as the
synthetic badge pseudo-category. -/
inductive CategoryType where
  | ALL
  | GOV
  | FREE
  | DISCOUNT
  | PACKAGE
  | LIFESTYLE
  | SUBSCRIPTION
  | FINANCE
deriving DecidableEq

/-- Update tag of a benefit (shared type declarations). -/
inductive UpdateType where
  | NEW
  | UPDATE
deriving DecidableEq

/-- Benefit record (shared type declarations); optional fields are
`Option`. -/
structure Benefit where
  id : String
  title : String
  description : String
  source : BenefitSource
  tags : List String
  category : CategoryType
  regionTarget : Option String
  ctaLink : String
  isRecommended : Option Bool
  lastUpdated : Option String
  updateType : Option UpdateType
  likeCount : Option Int
  envyCount : Option Int
deriving DecidableEq

/-- Per-scope badge flags. -/
structure BadgeInfo where
  hasNew : Bool
  hasUpdate : Bool
deriving DecidableEq

/-- The aggregator's record, with its JavaScript-object insertion order:
an association list from category key to flags. -/
abbrev BadgeMap := List (CategoryType × BadgeInfo)

/-- Lookup of a key in the badge record. -/
def findBadge : BadgeMap → CategoryType → Option BadgeInfo
  | [], _ => none
  | (k, v) :: r, c => if k = c then some v else findBadge r c

/-- JavaScript `!badges[cat]` negated: whether the key is present. -/
def hasKeyB (m : BadgeMap) (k : CategoryType) : Bool :=
  (findBadge m k).isSome

/-- The source's `if (!badges[k]) badges[k] = { hasNew: false, hasUpdate:
false }`: insert a default entry at the end when the key is absent. -/
def ensureKey (m : BadgeMap) (k : CategoryType) : BadgeMap :=
  if hasKeyB m k then m else m ++ [(k, ⟨false, false⟩)]

/-- The source's `badges[k].hasNew = true`: raise the flag at the (unique)
occurrence of the key, leaving everything else in place. -/
def setHasNew : BadgeMap → CategoryType → BadgeMap
  | [], _ => []
  | (k1, v1) :: r, c =>
    if k1 = c then (k1, ⟨true, v1.hasUpdate⟩) :: r
    else (k1, v1) :: setHasNew r c

/-- The source's `badges[k].hasUpdate = true`. -/
def setHasUpdate : BadgeMap → CategoryType → BadgeMap
  | [], _ => []
  | (k1, v1) :: r, c =>
    if k1 = c then (k1, ⟨v1.hasNew, true⟩) :: r
    else (k1, v1) :: setHasUpdate r c

/-- Body of the `benefits.forEach` loop of `computeCategoryBadges`
(src/App.tsx:54): ensure entries for the benefit's category and for `ALL`,
then, when the benefit is recent, raise the flag matching its update type
on both scopes. -/
def badgeStep (nowMs : Int) (m : BadgeMap) (b : Benefit) : BadgeMap :=
  let m1 := ensureKey m b.category
  let m2 := ensureKey m1 .ALL
  if isRecentUpdate b.lastUpdated nowMs then
    match b.updateType with
    | some .NEW => setHasNew (setHasNew m2 b.category) .ALL
    | some .UPDATE => setHasUpdate (setHasUpdate m2 b.category) .ALL
    | none => m2
  else m2

/-- Embedding of `computeCategoryBadges` (src/App.tsx:51). -/
def computeCategoryBadges (benefits : List Benefit) (nowMs : Int) : BadgeMap :=
  benefits.foldl (badgeStep nowMs) []

/-- The `hasNew` flag the record reports for a key (`false` when the key is
absent). -/
def hasNewAt (m : BadgeMap) (k : CategoryType) : Bool :=
  ((findBadge m k).getD ⟨false, false⟩).hasNew

/-- The `hasUpdate` flag the record reports for a key. -/
def hasUpdateAt (m : BadgeMap) (k : CategoryType) : Bool :=
  ((findBadge m k).getD ⟨false, false⟩).hasUpdate

/-- JavaScript `b.regionTarget?.includes(needle)` coerced to a boolean: an
absent region never matches. -/
def optIncludes (region : Option String) (needle : List Char) : Bool :=
  match region with
  | none => false
  | some r => containsSub r.data needle

/-- Sido stage of the filter (src/App.tsx:541): the sentinel `전체` passes
everything, otherwise the region must contain the selected sido. -/
def sidoOk (selectedSido : String) (b : Benefit) : Bool :=
  if selectedSido = "전체" then true
  else optIncludes b.regionTarget selectedSido.data

/-- Free-text stage of the filter (src/App.tsx:546): an empty trimmed query
passes everything, otherwise the trimmed query must occur in the title, the
description, or the region. -/
def queryOk (districtInput : String) (b : Benefit) : Bool :=
  let query := jsTrimL districtInput.data
  if query = [] then true
  else
    containsSub b.title.data query || containsSub b.description.data query ||
      optIncludes b.regionTarget query

/-- Embedding of `filteredBenefits` (src/App.tsx:539). -/
def filteredBenefits (benefits : List Benefit) (selectedSido districtInput : String) :
    List Benefit :=
  benefits.filter (fun b => sidoOk selectedSido b && queryOk districtInput b)

/-- Popularity key of the envy sort: `b.envyCount || 0`. -/
def envyKey (b : Benefit) : Int :=
  b.envyCount.getD 0

/-- Ordering relation realised by the comparator
`(a, b) => (b.envyCount || 0) - (a.envyCount || 0)`: `a` may stay before
`b` exactly when the comparator is nonpositive. -/
def envyGe (a b : Benefit) : Prop :=
  envyKey b ≤ envyKey a

instance : DecidableRel envyGe :=
  fun a b => inferInstanceAs (Decidable (envyKey b ≤ envyKey a))

instance : IsTotal Benefit envyGe :=
  ⟨fun a b => Int.le_total (envyKey b) (envyKey a)⟩

instance : IsTrans Benefit envyGe :=
  ⟨fun _ _ _ hab hbc => le_trans hbc hab⟩

/-- The two display tabs of the local-benefits page. -/
inductive Tab where
  | ALL
  | ENVY
deriving DecidableEq

/-- Embedding of `displayBenefits` (src/App.tsx:557): the envy tab sorts a
copy of the filtered list with the stable array sort under the envy
comparator; the other tab passes the list through. -/
def displayBenefits (tab : Tab) (filtered : List Benefit) : List Benefit :=
  match tab with
  | .ENVY => List.insertionSort envyGe filtered
  | .ALL => filtered

/-- Heap of JavaScript array objects, for the frame property of the envy
sort: addresses below `next` are allocated. -/
structure ArrayHeap where
  data : Nat → List Benefit
  next : Nat

/-- Contents of the array at an address. -/
def heapRead (h : ArrayHeap) (a : Nat) : List Benefit :=
  h.data a

/-- Overwrite the contents of the array at an address. -/
def heapWrite (h : ArrayHeap) (a : Nat) (v : List Benefit) : ArrayHeap :=
  ⟨fun x => if x = a then v else h.data x, h.next⟩

/-- The spread `[...src]`: allocate a fresh array holding the same
elements. -/
def spreadAlloc (h : ArrayHeap) (src : Nat) : ArrayHeap × Nat :=
  (⟨fun x => if x = h.next then h.data src else h.data x, h.next + 1⟩, h.next)

/-- JavaScript `arr.sort(comparator)` for the envy comparator: sorts the
receiver in place (stable since ES2019) and returns the receiver. -/
def sortInPlaceEnvy (h : ArrayHeap) (a : Nat) : ArrayHeap :=
  heapWrite h a (List.insertionSort envyGe (heapRead h a))

/-- The envy branch `[...filteredBenefits].sort((a, b) => ...)` as a heap
program: spread-copy the source array, sort the copy in place, return the
copy's address. -/
def displayBenefitsEnvy (h : ArrayHeap) (src : Nat) : ArrayHeap × Nat :=
  let alloc := spreadAlloc h src
  (sortInPlaceEnvy alloc.1 alloc.2, alloc.2)

/-- Benefit value with every optional field absent, used to build the
concrete examples of the spec. -/
def baseBenefit : Benefit :=
  { id := "", title := "", description := "", source := .GOV_LOCAL,
    tags := [], category := .ALL, regionTarget := none, ctaLink := "",
    isRecommended := none, lastUpdated := none, updateType := none,
    likeCount := none, envyCount := none }

example : jsNumber "2024".data = some (jsNumOfInt 2024) := by decide
example : jsNumber "".data = some (.finite 0 0) := by decide
example : jsNumber "12a".data = none := by decide
example : jsNumber "0x7EA".data = some (jsNumOfInt 2026) := by decide
example : jsNumber "2026e0".data = some (jsNumOfInt 2026) := by decide
example : jsNumber "202.6e1".data = some (jsNumOfInt 2026) := by decide
example : jsNumber "-3".data = some (jsNumOfInt (-3)) := by decide
example : jsNumber "+0b111".data = none := by decide
example : jsNumber "Infinity".data = some .posInf := by decide
example : jsNumber "-Infinity".data = some .negInf := by decide
example : jsNumber "0x".data = none := by decide
example : jsNumber "0.1".data = some (.finite 7205759403792794 (-56)) := by decide
example : jsNumber "9007199254740993".data = some (.finite 4503599627370496 1) := by
  decide
example : jsNumber "9007199254740995".data = some (.finite 4503599627370498 1) := by
  decide
example : jsNumber "1e309".data = some .posInf := by decide
example : jsNumber "1e-324".data = some (.finite 0 0) := by decide
example : jsNumber "5e-324".data = some (.finite 1 (-1074)) := by decide
example : daysFromCivil 1970 1 1 = 0 := by decide
example : daysFromCivil 2024 5 1 = 19844 := by decide
example : isRecentUpdate (some "2024.5.1") (19844 * msPerDay) = true := by decide
example : isRecentUpdate (some "2024.5.1") (19874 * msPerDay) = true := by decide
example : isRecentUpdate (some "2024.5.1") (19875 * msPerDay) = false := by decide
example : isRecentUpdate (some "2024.5.1") (19843 * msPerDay) = false := by decide
example : isRecentUpdate (some "2024.05.01") (19844 * msPerDay) = true := by decide
example : isRecentUpdate (some "2024-05-01") 0 = false := by decide
example : isRecentUpdate none 0 = false := by decide
example : isRecentUpdate (some "0x7EA.10.1") (daysFromCivil 2026 10 12 * msPerDay) = true := by
  decide
example : isRecentUpdate (some "2026.10.1") (daysFromCivil 2026 10 12 * msPerDay) = true := by
  decide
example : isRecentUpdate (some "2026e0.10.1") (daysFromCivil 2026 10 12 * msPerDay) = true := by
  decide
example : isRecentUpdate (some "Infinity.1.1") 0 = false := by decide
example : isRecentUpdate (some "2026.107e-1.1") (daysFromCivil 2026 10 12 * msPerDay) = true := by
  decide

/-! ### Structural lemmas about trimming and whitespace splitting -/

lemma dropWhile_all_false {p : Char → Bool} {l : List Char}
    (h : ∀ c ∈ l, p c = false) : l.dropWhile p = l := by
  cases l with
  | nil => rfl
  | cons c cs => simp [List.dropWhile_cons, h c (List.mem_cons_self c cs)]

lemma jsTrim_of_noWs {l : List Char} (h : ∀ c ∈ l, jsWs c = false) :
    jsTrimL l = l := by
  unfold jsTrimL
  rw [dropWhile_all_false (fun c hc => h c (List.mem_reverse.mp hc)),
    List.reverse_reverse, dropWhile_all_false h]

lemma head?_dropWhile_false {p : Char → Bool} :
    ∀ {l : List Char} {c : Char}, (l.dropWhile p).head? = some c → p c = false := by
  intro l
  induction l with
  | nil => intro c h; simp at h
  | cons x xs ih =>
    intro c h
    rw [List.dropWhile_cons] at h
    by_cases hx : p x = true
    · rw [if_pos hx] at h
      exact ih h
    · rw [if_neg hx] at h
      rw [List.head?_cons] at h
      injection h with h2
      rw [← h2]
      exact Bool.not_eq_true _ ▸ Bool.of_not_eq_true hx

lemma jsTrim_head_not_ws {l : List Char} {c : Char}
    (h : (jsTrimL l).head? = some c) : jsWs c = false := by
  unfold jsTrimL at h
  exact head?_dropWhile_false h

lemma jsTrim_getLast_not_ws {l : List Char} {c : Char}
    (h : (jsTrimL l).getLast? = some c) : jsWs c = false := by
  have hsuf : (((l.reverse.dropWhile jsWs).reverse).dropWhile jsWs) <:+
      ((l.reverse.dropWhile jsWs).reverse) := List.dropWhile_suffix jsWs
  obtain ⟨pre, hpre⟩ := hsuf
  have hM : ((l.reverse.dropWhile jsWs).reverse).getLast? = some c := by
    rw [← hpre, List.getLast?_append]
    unfold jsTrimL at h
    rw [h]
    rfl
  rw [List.getLast?_reverse] at hM
  exact head?_dropWhile_false hM

lemma flushAcc_append (acc : List Char) (rest : List (List Char)) :
    flushAcc acc rest = flushAcc acc [] ++ rest := by
  unfold flushAcc
  by_cases h : acc = [] <;> simp [h]

lemma splitWsAux_ws_append {c : Char} (hc : jsWs c = true) (l2 : List Char) :
    ∀ (l1 acc : List Char),
      splitWsAux (l1 ++ c :: l2) acc = splitWsAux l1 acc ++ splitWs l2 := by
  intro l1
  induction l1 with
  | nil =>
    intro acc
    simp only [List.nil_append, splitWsAux, hc, if_true]
    rw [flushAcc_append]
    rfl
  | cons x xs ih =>
    intro acc
    simp only [List.cons_append, splitWsAux, List.append_eq]
    by_cases hx : jsWs x = true
    · rw [if_pos hx, if_pos hx, ih [],
        flushAcc_append acc (splitWsAux xs [] ++ splitWs l2),
        flushAcc_append acc (splitWsAux xs []), List.append_assoc]
    · rw [if_neg hx, if_neg hx, ih (x :: acc)]

lemma splitWsAux_ne_nil :
    ∀ (l acc : List Char),
      ((∃ x ∈ l, jsWs x = false) ∨ acc ≠ []) → splitWsAux l acc ≠ [] := by
  intro l
  induction l with
  | nil =>
    intro acc h
    rcases h with ⟨x, hx, _⟩ | h
    · simp at hx
    · simp [splitWsAux, flushAcc, h]
  | cons x xs ih =>
    intro acc h
    rw [splitWsAux]
    by_cases hx : jsWs x = true
    · rw [if_pos hx]
      by_cases hacc : acc = []
      · rw [hacc]
        show flushAcc [] (splitWsAux xs []) ≠ []
        rw [flushAcc, if_pos rfl]
        apply ih
        left
        rcases h with ⟨y, hy, hyw⟩ | h
        · rcases List.mem_cons.mp hy with rfl | hy2
          · rw [hx] at hyw
            exact absurd hyw (by simp)
          · exact ⟨y, hy2, hyw⟩
        · exact absurd hacc h
      · rw [flushAcc, if_neg hacc]
        simp
    · rw [if_neg hx]
      apply ih
      right
      simp

lemma two_tokens_of_ws {s : List Char} {w : Char} (hw : jsWs w = true)
    (hsp : w ∈ jsTrimL s) : 2 ≤ (splitWs (jsTrimL s)).length := by
  obtain ⟨l1, l2, ht⟩ := List.append_of_mem hsp
  have hl1 : l1 ≠ [] := by
    intro h1
    rw [h1, List.nil_append] at ht
    have : jsWs w = false := jsTrim_head_not_ws (by rw [ht, List.head?_cons])
    rw [hw] at this
    exact Bool.noConfusion this
  have hl2 : l2 ≠ [] := by
    intro h2
    rw [h2] at ht
    have : jsWs w = false := jsTrim_getLast_not_ws (by
      rw [ht, List.getLast?_append]
      rfl)
    rw [hw] at this
    exact Bool.noConfusion this
  obtain ⟨a, l1t, rfl⟩ := List.exists_cons_of_ne_nil hl1
  have haw : jsWs a = false := jsTrim_head_not_ws (by rw [ht, List.cons_append, List.head?_cons])
  obtain ⟨d, hd⟩ : ∃ d, l2.getLast? = some d := by
    cases hdl : l2.getLast? with
    | none => exact absurd (List.getLast?_eq_none_iff.mp hdl) hl2
    | some d => exact ⟨d, rfl⟩
  have hdw : jsWs d = false := jsTrim_getLast_not_ws (by
    rw [ht, List.getLast?_append, List.getLast?_cons, hd]
    rfl)
  have hgoal : 2 ≤ (splitWsAux ((a :: l1t) ++ w :: l2) []).length := by
    rw [splitWsAux_ws_append hw l2 (a :: l1t) [], List.length_append]
    have h1 : splitWsAux (a :: l1t) [] ≠ [] :=
      splitWsAux_ne_nil _ _ (Or.inl ⟨a, List.mem_cons_self a l1t, haw⟩)
    have h2 : splitWs l2 ≠ [] :=
      splitWsAux_ne_nil _ _ (Or.inl ⟨d, List.mem_of_getLast?_eq_some hd, hdw⟩)
    have := List.length_pos.mpr h1
    have := List.length_pos.mpr h2
    omega
  rw [ht]
  exact hgoal

/-! ### Spec-side formulations of the validator rule list -/

/-- Reasons of the spec's validation rules; the claim distinguishes the
rule-2 spacing reason from the rule-3 spacing-error reason, while the code
emits the same message string for both. -/
inductive SpecReason where
  | required
  | spacing
  | spacingTypo
  | bothLevels
  | districtDetail
deriving DecidableEq

/-- Outcome of the spec's rule list. -/
inductive SpecOutcome where
  | ok (trimmed : String)
  | err (reason : SpecReason)
deriving DecidableEq

/-- Message the code uses for each spec reason. -/
def specMsg : SpecReason → String
  | .required => requiredMsg
  | .spacing => spacingMsg
  | .spacingTypo => spacingMsg
  | .bothLevels => bothLevelsMsg
  | .districtDetail => districtMsg

/-- The rule list of claim C1 exactly as stated: rule 2 fires when the
trimmed string contains no whitespace at all. -/
def claimValidate (text : String) : SpecOutcome :=
  let trimmed := jsTrimL text.data
  if trimmed = [] then .err .required
  else if ∀ c ∈ trimmed, jsWs c = false then .err .spacing
  else
    let parts := splitWs trimmed
    if parts.any typoTest then .err .spacingTypo
    else if parts.length < 2 then .err .bothLevels
    else
      match parts with
      | [_, p2] =>
        if p2.getLast? = some '시' then .err .districtDetail
        else .ok (String.mk trimmed)
      | _ => .ok (String.mk trimmed)

/-- The rule list of claim C1 with rule 2 amended to what the code tests:
the trimmed string contains no space character (U+0020). -/
def claimValidateAmended (text : String) : SpecOutcome :=
  let trimmed := jsTrimL text.data
  if trimmed = [] then .err .required
  else if ' ' ∉ trimmed then .err .spacing
  else
    let parts := splitWs trimmed
    if parts.any typoTest then .err .spacingTypo
    else if parts.length < 2 then .err .bothLevels
    else
      match parts with
      | [_, p2] =>
        if p2.getLast? = some '시' then .err .districtDetail
        else .ok (String.mk trimmed)
      | _ => .ok (String.mk trimmed)

/-- Validation result a spec outcome predicts for the code. -/
def specToCode : SpecOutcome → Option String
  | .ok _ => none
  | .err r => some (specMsg r)

/-- Search query a spec outcome predicts for the submit handler. -/
def specToSearch : SpecOutcome → Option String
  | .ok t => some t
  | .err _ => none

lemma typoLoop_eq_any (ps : List (List Char)) : typoLoop ps = ps.any typoTest := by
  induction ps with
  | nil => rfl
  | cons p ps ih =>
    rw [typoLoop, List.any_cons, ih]
    by_cases h : typoTest p = true <;> simp [h]

lemma claimValidateAmended_ok {s t : String}
    (h : claimValidateAmended s = .ok t) : t = trimOf s := by
  simp only [claimValidateAmended] at h
  by_cases e1 : jsTrimL s.data = []
  · rw [if_pos e1] at h
    exact SpecOutcome.noConfusion h
  · rw [if_neg e1] at h
    by_cases e2 : ' ' ∉ jsTrimL s.data
    · rw [if_pos e2] at h
      exact SpecOutcome.noConfusion h
    · rw [if_neg e2] at h
      by_cases e3 : (splitWs (jsTrimL s.data)).any typoTest = true
      · rw [if_pos e3] at h
        exact SpecOutcome.noConfusion h
      · rw [if_neg e3] at h
        by_cases e4 : (splitWs (jsTrimL s.data)).length < 2
        · rw [if_pos e4] at h
          exact SpecOutcome.noConfusion h
        · rw [if_neg e4] at h
          split at h
          · split at h
            · exact SpecOutcome.noConfusion h
            · injection h with h2
              rw [← h2]
              rfl
          · injection h with h2
            rw [← h2]
            rfl

/-- Claim C1 fails as stated: on the tab-separated input the claim's rule
list accepts (the trimmed string does contain whitespace, and the later
rules all pass), yet the code rejects with the spacing message — its rule 2
looks only for the space character — and issues no search. -/
theorem claimC1_counterexample :
    claimValidate "a\tb" = .ok "a\tb" ∧
    validateSearchInput "a\tb" = some spacingMsg ∧
    handleSubmitModel "a\tb" = none := by
  decide

/-- Amended claim C1: the validator applies the claim's rules in order with
the first failure winning, where rule 2 reads "the trimmed string contains
no space character"; on every input both the validation result and the
issued search query agree with that rule list, and a search is issued with
the trimmed string exactly on acceptance. -/
theorem validateSearchInput_rules (s : String) :
    validateSearchInput s = specToCode (claimValidateAmended s) ∧
    handleSubmitModel s = specToSearch (claimValidateAmended s) := by
  have h1 : validateSearchInput s = specToCode (claimValidateAmended s) := by
    simp only [validateSearchInput, claimValidateAmended, typoLoop_eq_any]
    by_cases e1 : jsTrimL s.data = []
    · simp [e1, specToCode, specMsg]
    · by_cases e2 : ' ' ∉ jsTrimL s.data
      · simp [e1, e2, specToCode, specMsg]
      · by_cases e3 : (splitWs (jsTrimL s.data)).any typoTest = true
        · simp [e1, e2, e3, specToCode, specMsg]
        · by_cases e4 : (splitWs (jsTrimL s.data)).length < 2
          · simp [e1, e2, e3, e4, specToCode, specMsg]
          · rw [if_neg e1, if_neg e2, if_neg e3, if_neg e4]
            rw [if_neg e1, if_neg e2, if_neg e3, if_neg e4]
            rcases hp : splitWs (jsTrimL s.data) with _ | ⟨p1, _ | ⟨p2, _ | ⟨p3, rest⟩⟩⟩
            · rw [hp] at e4
              simp at e4
            · rw [hp] at e4
              simp at e4
            · by_cases e5 : p2.getLast? = some '시' <;>
                simp [e5, specToCode, specMsg]
            · simp [specToCode]
  refine ⟨h1, ?_⟩
  rw [handleSubmitModel, h1]
  cases hc : claimValidateAmended s with
  | err r => simp [specToCode, specToSearch]
  | ok t =>
    simp [specToCode, specToSearch]
    exact (claimValidateAmended_ok hc).symm

/-- Claim C6 fails as stated on the empty string: it contains zero
whitespace characters, yet the validator rejects it with the
required-address message, not the spacing message. -/
theorem claimC6_counterexample :
    ("" : String).data = [] ∧
    validateSearchInput "" = some requiredMsg ∧
    requiredMsg ≠ spacingMsg := by
  decide

/-- Amended claim C6: every nonempty address string containing no
whitespace at all is rejected with the spacing message. -/
theorem validate_noWs_spacing (s : String)
    (hws : ∀ c ∈ s.data, jsWs c = false) (hne : s ≠ "") :
    validateSearchInput s = some spacingMsg := by
  have htrim : jsTrimL s.data = s.data := jsTrim_of_noWs hws
  have hdata : s.data ≠ [] := by
    intro h
    apply hne
    cases s with
    | mk l =>
      cases h
      decide
  have hsp : ' ' ∉ s.data := fun hm => absurd (hws ' ' hm) (by decide)
  simp only [validateSearchInput, htrim]
  rw [if_neg hdata, if_pos hsp]

theorem validate_noWs_spacing_witness :
    (∀ c ∈ ("서울시송파구" : String).data, jsWs c = false) ∧
    ("서울시송파구" : String) ≠ "" ∧
    validateSearchInput "서울시송파구" = some spacingMsg :=
  ⟨by decide, by decide, validate_noWs_spacing "서울시송파구" (by decide) (by decide)⟩

/-- Claim C7 fails as stated: the first input below has exactly two
whitespace-delimited tokens whose second token ends in 시, yet the
validator rejects it with the spacing message because the concatenation-typo
rule fires on its first token; the second, tab-separated input likewise has
two tokens with 시 at the end but is rejected by the space check, which
precedes the two-token rule. -/
theorem claimC7_counterexample :
    (splitWs (jsTrimL ("경기도성남시 수원시" : String).data)).length = 2 ∧
    ((splitWs (jsTrimL ("경기도성남시 수원시" : String).data)).getD 1 []).getLast?
      = some '시' ∧
    validateSearchInput "경기도성남시 수원시" = some spacingMsg ∧
    (splitWs (jsTrimL ("경기\t성남시" : String).data)).length = 2 ∧
    ((splitWs (jsTrimL ("경기\t성남시" : String).data)).getD 1 []).getLast?
      = some '시' ∧
    validateSearchInput "경기\t성남시" = some spacingMsg ∧
    spacingMsg ≠ districtMsg := by
  decide

/-- Amended claim C7: provided the trimmed input contains a space and no
token triggers the concatenation-typo rule, a two-token address whose
second token ends in 시 is rejected with the district-detail message, and
a three-token address passes validation. -/
theorem validate_twoThreeTokens (s : String) :
    (∀ p1 p2 : List Char,
        ' ' ∈ jsTrimL s.data →
        splitWs (jsTrimL s.data) = [p1, p2] →
        typoTest p1 = false → typoTest p2 = false →
        p2.getLast? = some '시' →
        validateSearchInput s = some districtMsg) ∧
    (∀ p1 p2 p3 : List Char,
        ' ' ∈ jsTrimL s.data →
        splitWs (jsTrimL s.data) = [p1, p2, p3] →
        typoTest p1 = false → typoTest p2 = false → typoTest p3 = false →
        validateSearchInput s = none) := by
  constructor
  · intro p1 p2 hsp hp ht1 ht2 hlast
    have hne : jsTrimL s.data ≠ [] := by
      intro h
      rw [h] at hp
      simp [splitWs, splitWsAux, flushAcc] at hp
    simp only [validateSearchInput]
    rw [if_neg hne, if_neg (not_not_intro hsp), hp, typoLoop_eq_any]
    simp [ht1, ht2, hlast]
  · intro p1 p2 p3 hsp hp ht1 ht2 ht3
    have hne : jsTrimL s.data ≠ [] := by
      intro h
      rw [h] at hp
      simp [splitWs, splitWsAux, flushAcc] at hp
    simp only [validateSearchInput]
    rw [if_neg hne, if_neg (not_not_intro hsp), hp, typoLoop_eq_any]
    simp [ht1, ht2, ht3]

theorem validate_twoThreeTokens_witness :
    (' ' ∈ jsTrimL ("경기도 성남시" : String).data) ∧
    splitWs (jsTrimL ("경기도 성남시" : String).data) =
      [['경', '기', '도'], ['성', '남', '시']] ∧
    typoTest ['경', '기', '도'] = false ∧
    typoTest ['성', '남', '시'] = false ∧
    (['성', '남', '시'] : List Char).getLast? = some '시' ∧
    validateSearchInput "경기도 성남시" = some districtMsg ∧
    (' ' ∈ jsTrimL ("경기도 성남시 수정구" : String).data) ∧
    splitWs (jsTrimL ("경기도 성남시 수정구" : String).data) =
      [['경', '기', '도'], ['성', '남', '시'], ['수', '정', '구']] ∧
    typoTest ['수', '정', '구'] = false ∧
    validateSearchInput "경기도 성남시 수정구" = none :=
  ⟨by decide, by decide, by decide, by decide, by decide,
    (validate_twoThreeTokens "경기도 성남시").1 ['경', '기', '도'] ['성', '남', '시']
      (by decide) (by decide) (by decide) (by decide) (by decide),
    by decide, by decide, by decide,
    (validate_twoThreeTokens "경기도 성남시 수정구").2
      ['경', '기', '도'] ['성', '남', '시'] ['수', '정', '구']
      (by decide) (by decide) (by decide) (by decide) (by decide)⟩

/-- Claim C10: once the earlier rules have passed — the trimmed input is
nonempty and contains a whitespace character — splitting on whitespace runs
yields at least two tokens, and consequently the validator never returns
the both-levels message on any input whatsoever. -/
theorem validate_bothLevels_unreachable :
    (∀ (s : String) (w : Char), jsTrimL s.data ≠ [] → jsWs w = true →
        w ∈ jsTrimL s.data → 2 ≤ (splitWs (jsTrimL s.data)).length) ∧
    ∀ s : String, validateSearchInput s ≠ some bothLevelsMsg := by
  constructor
  · intro s w _ hw hm
    exact two_tokens_of_ws hw hm
  · intro s h
    simp only [validateSearchInput] at h
    by_cases e1 : jsTrimL s.data = []
    · rw [if_pos e1] at h
      exact absurd (Option.some.inj h) (by decide)
    · rw [if_neg e1] at h
      by_cases e2 : ' ' ∉ jsTrimL s.data
      · rw [if_pos e2] at h
        exact absurd (Option.some.inj h) (by decide)
      · rw [if_neg e2] at h
        by_cases e3 : typoLoop (splitWs (jsTrimL s.data)) = true
        · rw [if_pos e3] at h
          exact absurd (Option.some.inj h) (by decide)
        · rw [if_neg e3] at h
          have hlen : ¬ (splitWs (jsTrimL s.data)).length < 2 := by
            have h2t : 2 ≤ (splitWs (jsTrimL s.data)).length :=
              two_tokens_of_ws (by decide) (not_not.mp e2)
            omega
          rw [if_neg hlen] at h
          split at h
          · split at h
            · exact absurd (Option.some.inj h) (by decide)
            · exact Option.noConfusion h
          · exact Option.noConfusion h

theorem validate_bothLevels_unreachable_witness :
    (jsTrimL ("서울시 송파구" : String).data ≠ [] ∧ jsWs ' ' = true ∧
      ' ' ∈ jsTrimL ("서울시 송파구" : String).data ∧
      2 ≤ (splitWs (jsTrimL ("서울시 송파구" : String).data)).length) ∧
    validateSearchInput "서울시 송파구" ≠ some bothLevelsMsg :=
  ⟨⟨by decide, by decide, by decide,
    validate_bothLevels_unreachable.1 "서울시 송파구" ' ' (by decide) (by decide) (by decide)⟩,
    validate_bothLevels_unreachable.2 "서울시 송파구"⟩

/-! ### Recency classifier: claim C2 -/

/-- Claim C2: the recency classifier returns true exactly when the date
string splits on the dot into exactly three parts, each part converts to
a number (not NaN), the constructed calendar date (year, month-1, day,
with the month subtraction in double arithmetic) is valid, and
the elapsed milliseconds from that date to now correspond to a day count
(elapsed divided by 86,400,000) in the closed interval from 0 to 30; an
absent string, a wrong shape, an unparseable date, a future date, or a
date more than 30 days old all yield false, and no case errors. -/
theorem isRecentUpdate_spec :
    (∀ now : Int, isRecentUpdate none now = false) ∧
    ∀ (s : String) (now : Int),
      isRecentUpdate (some s) now = true ↔
        ∃ p1 p2 p3 y m d t,
          splitOnChar '.' s.data = [p1, p2, p3] ∧
          jsNumber p1 = some y ∧ jsNumber p2 = some m ∧ jsNumber p3 = some d ∧
          dateCtorMs y (jsSub1 m) d = some t ∧
          0 ≤ now - t ∧ now - t ≤ 30 * msPerDay := by
  refine ⟨fun _ => rfl, ?_⟩
  intro s now
  constructor
  · intro h
    simp only [isRecentUpdate] at h
    split at h
    · rename_i p1 p2 p3 heq
      split at h
      · rename_i y m d hy hm hd
        split at h
        · rename_i t ht
          have hprop := of_decide_eq_true h
          exact ⟨p1, p2, p3, y, m, d, t, heq, hy, hm, hd, ht, hprop.1, hprop.2⟩
        · exact Bool.noConfusion h
      · exact Bool.noConfusion h
    · exact Bool.noConfusion h
  · rintro ⟨p1, p2, p3, y, m, d, t, hp, hy, hm, hd, ht, h0, h30⟩
    simp only [isRecentUpdate, hp, hy, hm, hd, ht]
    exact decide_eq_true ⟨h0, h30⟩

/-! ### Badge aggregator: claims C3 and C8 -/

lemma findBadge_append (m : BadgeMap) (k c : CategoryType) (v : BadgeInfo) :
    findBadge (m ++ [(c, v)]) k =
      match findBadge m k with
      | some w => some w
      | none => if c = k then some v else none := by
  induction m with
  | nil => rfl
  | cons e rest ih =>
    obtain ⟨k1, v1⟩ := e
    by_cases h : k1 = k
    · simp [findBadge, h]
    · simp [findBadge, h, ih]

lemma findBadge_setHasNew (m : BadgeMap) (c k : CategoryType) :
    findBadge (setHasNew m c) k =
      (findBadge m k).map
        (fun w => if k = c then (⟨true, w.hasUpdate⟩ : BadgeInfo) else w) := by
  induction m with
  | nil => rfl
  | cons e rest ih =>
    obtain ⟨k1, v1⟩ := e
    by_cases h1 : k1 = c
    · subst h1
      by_cases h2 : k1 = k
      · subst h2
        simp [setHasNew, findBadge]
      · have hkc : ¬ k = k1 := fun hh => h2 hh.symm
        simp [setHasNew, findBadge, h2, hkc]
    · by_cases h2 : k1 = k
      · subst h2
        have hkc : ¬ k1 = c := h1
        simp [setHasNew, findBadge, hkc]
      · simp [setHasNew, findBadge, h1, h2, ih]

lemma findBadge_setHasUpdate (m : BadgeMap) (c k : CategoryType) :
    findBadge (setHasUpdate m c) k =
      (findBadge m k).map
        (fun w => if k = c then (⟨w.hasNew, true⟩ : BadgeInfo) else w) := by
  induction m with
  | nil => rfl
  | cons e rest ih =>
    obtain ⟨k1, v1⟩ := e
    by_cases h1 : k1 = c
    · subst h1
      by_cases h2 : k1 = k
      · subst h2
        simp [setHasUpdate, findBadge]
      · have hkc : ¬ k = k1 := fun hh => h2 hh.symm
        simp [setHasUpdate, findBadge, h2, hkc]
    · by_cases h2 : k1 = k
      · subst h2
        have hkc : ¬ k1 = c := h1
        simp [setHasUpdate, findBadge, hkc]
      · simp [setHasUpdate, findBadge, h1, h2, ih]

lemma hasNewAt_ensureKey (m : BadgeMap) (c k : CategoryType) :
    hasNewAt (ensureKey m c) k = hasNewAt m k := by
  unfold ensureKey
  by_cases h : hasKeyB m c = true
  · rw [if_pos h]
  · rw [if_neg h]
    unfold hasNewAt
    rw [findBadge_append]
    cases hf : findBadge m k with
    | some w => rfl
    | none =>
      by_cases hck : c = k <;> simp [hck]

lemma hasUpdateAt_ensureKey (m : BadgeMap) (c k : CategoryType) :
    hasUpdateAt (ensureKey m c) k = hasUpdateAt m k := by
  unfold ensureKey
  by_cases h : hasKeyB m c = true
  · rw [if_pos h]
  · rw [if_neg h]
    unfold hasUpdateAt
    rw [findBadge_append]
    cases hf : findBadge m k with
    | some w => rfl
    | none =>
      by_cases hck : c = k <;> simp [hck]

lemma hasKeyB_ensureKey_self (m : BadgeMap) (c : CategoryType) :
    hasKeyB (ensureKey m c) c = true := by
  unfold ensureKey
  by_cases h : hasKeyB m c = true
  · rw [if_pos h]
    exact h
  · rw [if_neg h]
    unfold hasKeyB at *
    rw [findBadge_append]
    cases hf : findBadge m c with
    | some w => rfl
    | none => simp

lemma hasKeyB_ensureKey_mono (m : BadgeMap) (c k : CategoryType)
    (h : hasKeyB m k = true) : hasKeyB (ensureKey m c) k = true := by
  unfold ensureKey
  by_cases hc : hasKeyB m c = true
  · rw [if_pos hc]
    exact h
  · rw [if_neg hc]
    unfold hasKeyB at *
    rw [findBadge_append]
    cases hf : findBadge m k with
    | some w => rfl
    | none => rw [hf] at h; exact Bool.noConfusion h

lemma hasKeyB_setHasNew (m : BadgeMap) (c k : CategoryType) :
    hasKeyB (setHasNew m c) k = hasKeyB m k := by
  unfold hasKeyB
  rw [findBadge_setHasNew]
  cases findBadge m k <;> rfl

lemma hasKeyB_setHasUpdate (m : BadgeMap) (c k : CategoryType) :
    hasKeyB (setHasUpdate m c) k = hasKeyB m k := by
  unfold hasKeyB
  rw [findBadge_setHasUpdate]
  cases findBadge m k <;> rfl

lemma hasNewAt_setHasNew_self (m : BadgeMap) (c : CategoryType)
    (h : hasKeyB m c = true) : hasNewAt (setHasNew m c) c = true := by
  unfold hasNewAt
  rw [findBadge_setHasNew]
  cases hf : findBadge m c with
  | none =>
    unfold hasKeyB at h
    rw [hf] at h
    exact Bool.noConfusion h
  | some w => simp

lemma hasNewAt_setHasNew_mono (m : BadgeMap) (c k : CategoryType)
    (h : hasNewAt m k = true) : hasNewAt (setHasNew m c) k = true := by
  unfold hasNewAt at *
  rw [findBadge_setHasNew]
  cases hf : findBadge m k with
  | none => rw [hf] at h; simp at h
  | some w =>
    rw [hf] at h
    simp only [Option.getD_some] at h
    by_cases hkc : k = c <;> simp [hkc, h]

lemma hasUpdateAt_setHasNew (m : BadgeMap) (c k : CategoryType) :
    hasUpdateAt (setHasNew m c) k = hasUpdateAt m k := by
  unfold hasUpdateAt
  rw [findBadge_setHasNew]
  cases hf : findBadge m k with
  | none => rfl
  | some w => by_cases hkc : k = c <;> simp [hkc]

lemma hasNewAt_setHasUpdate (m : BadgeMap) (c k : CategoryType) :
    hasNewAt (setHasUpdate m c) k = hasNewAt m k := by
  unfold hasNewAt
  rw [findBadge_setHasUpdate]
  cases hf : findBadge m k with
  | none => rfl
  | some w => by_cases hkc : k = c <;> simp [hkc]

lemma hasUpdateAt_setHasUpdate_self (m : BadgeMap) (c : CategoryType)
    (h : hasKeyB m c = true) : hasUpdateAt (setHasUpdate m c) c = true := by
  unfold hasUpdateAt
  rw [findBadge_setHasUpdate]
  cases hf : findBadge m c with
  | none =>
    unfold hasKeyB at h
    rw [hf] at h
    exact Bool.noConfusion h
  | some w => simp

lemma hasUpdateAt_setHasUpdate_mono (m : BadgeMap) (c k : CategoryType)
    (h : hasUpdateAt m k = true) : hasUpdateAt (setHasUpdate m c) k = true := by
  unfold hasUpdateAt at *
  rw [findBadge_setHasUpdate]
  cases hf : findBadge m k with
  | none => rw [hf] at h; simp at h
  | some w =>
    rw [hf] at h
    simp only [Option.getD_some] at h
    by_cases hkc : k = c <;> simp [hkc, h]

lemma badgeStep_mono_new (now : Int) (m : BadgeMap) (b : Benefit) (k : CategoryType)
    (h : hasNewAt m k = true) : hasNewAt (badgeStep now m b) k = true := by
  have h2 : hasNewAt (ensureKey (ensureKey m b.category) .ALL) k = true := by
    rw [hasNewAt_ensureKey, hasNewAt_ensureKey]
    exact h
  simp only [badgeStep]
  by_cases hr : isRecentUpdate b.lastUpdated now = true
  · rw [if_pos hr]
    cases hu : b.updateType with
    | none => exact h2
    | some ut =>
      cases ut with
      | NEW => exact hasNewAt_setHasNew_mono _ _ _ (hasNewAt_setHasNew_mono _ _ _ h2)
      | UPDATE => rw [hasNewAt_setHasUpdate, hasNewAt_setHasUpdate]; exact h2
  · rw [if_neg hr]
    exact h2

lemma badgeStep_mono_update (now : Int) (m : BadgeMap) (b : Benefit) (k : CategoryType)
    (h : hasUpdateAt m k = true) : hasUpdateAt (badgeStep now m b) k = true := by
  have h2 : hasUpdateAt (ensureKey (ensureKey m b.category) .ALL) k = true := by
    rw [hasUpdateAt_ensureKey, hasUpdateAt_ensureKey]
    exact h
  simp only [badgeStep]
  by_cases hr : isRecentUpdate b.lastUpdated now = true
  · rw [if_pos hr]
    cases hu : b.updateType with
    | none => exact h2
    | some ut =>
      cases ut with
      | NEW => rw [hasUpdateAt_setHasNew, hasUpdateAt_setHasNew]; exact h2
      | UPDATE =>
        exact hasUpdateAt_setHasUpdate_mono _ _ _ (hasUpdateAt_setHasUpdate_mono _ _ _ h2)
  · rw [if_neg hr]
    exact h2

lemma badgeStep_sets_new (now : Int) (m : BadgeMap) (b : Benefit)
    (hr : isRecentUpdate b.lastUpdated now = true) (hu : b.updateType = some .NEW) :
    hasNewAt (badgeStep now m b) b.category = true ∧
    hasNewAt (badgeStep now m b) .ALL = true := by
  simp only [badgeStep, hu, hr, if_true]
  constructor
  · apply hasNewAt_setHasNew_mono
    apply hasNewAt_setHasNew_self
    exact hasKeyB_ensureKey_mono _ _ _ (hasKeyB_ensureKey_self m b.category)
  · apply hasNewAt_setHasNew_self
    rw [hasKeyB_setHasNew]
    exact hasKeyB_ensureKey_self _ .ALL

lemma badgeStep_sets_update (now : Int) (m : BadgeMap) (b : Benefit)
    (hr : isRecentUpdate b.lastUpdated now = true) (hu : b.updateType = some .UPDATE) :
    hasUpdateAt (badgeStep now m b) b.category = true ∧
    hasUpdateAt (badgeStep now m b) .ALL = true := by
  simp only [badgeStep, hu, hr, if_true]
  constructor
  · apply hasUpdateAt_setHasUpdate_mono
    apply hasUpdateAt_setHasUpdate_self
    exact hasKeyB_ensureKey_mono _ _ _ (hasKeyB_ensureKey_self m b.category)
  · apply hasUpdateAt_setHasUpdate_self
    rw [hasKeyB_setHasUpdate]
    exact hasKeyB_ensureKey_self _ .ALL

lemma foldl_badgeStep_mono_new (now : Int) :
    ∀ (l : List Benefit) (m : BadgeMap) (k : CategoryType),
      hasNewAt m k = true → hasNewAt (l.foldl (badgeStep now) m) k = true := by
  intro l
  induction l with
  | nil => intro m k h; exact h
  | cons b bs ih => intro m k h; exact ih _ _ (badgeStep_mono_new now m b k h)

lemma foldl_badgeStep_mono_update (now : Int) :
    ∀ (l : List Benefit) (m : BadgeMap) (k : CategoryType),
      hasUpdateAt m k = true → hasUpdateAt (l.foldl (badgeStep now) m) k = true := by
  intro l
  induction l with
  | nil => intro m k h; exact h
  | cons b bs ih => intro m k h; exact ih _ _ (badgeStep_mono_update now m b k h)

lemma foldl_new_of_mem (now : Int) :
    ∀ (l : List Benefit) (m : BadgeMap) (b : Benefit), b ∈ l →
      isRecentUpdate b.lastUpdated now = true → b.updateType = some .NEW →
      hasNewAt (l.foldl (badgeStep now) m) b.category = true ∧
      hasNewAt (l.foldl (badgeStep now) m) .ALL = true := by
  intro l
  induction l with
  | nil => intro m b hb; cases hb
  | cons x xs ih =>
    intro m b hb hr hu
    rcases List.mem_cons.mp hb with rfl | hb2
    · exact ⟨foldl_badgeStep_mono_new now xs _ _ (badgeStep_sets_new now m b hr hu).1,
        foldl_badgeStep_mono_new now xs _ _ (badgeStep_sets_new now m b hr hu).2⟩
    · exact ih _ b hb2 hr hu

lemma foldl_update_of_mem (now : Int) :
    ∀ (l : List Benefit) (m : BadgeMap) (b : Benefit), b ∈ l →
      isRecentUpdate b.lastUpdated now = true → b.updateType = some .UPDATE →
      hasUpdateAt (l.foldl (badgeStep now) m) b.category = true ∧
      hasUpdateAt (l.foldl (badgeStep now) m) .ALL = true := by
  intro l
  induction l with
  | nil => intro m b hb; cases hb
  | cons x xs ih =>
    intro m b hb hr hu
    rcases List.mem_cons.mp hb with rfl | hb2
    · exact ⟨foldl_badgeStep_mono_update now xs _ _ (badgeStep_sets_update now m b hr hu).1,
        foldl_badgeStep_mono_update now xs _ _ (badgeStep_sets_update now m b hr hu).2⟩
    · exact ih _ b hb2 hr hu

lemma badgeStep_noType (now : Int) (m : BadgeMap) (b : Benefit) (k : CategoryType)
    (hu : b.updateType = none) :
    hasNewAt (badgeStep now m b) k = hasNewAt m k ∧
    hasUpdateAt (badgeStep now m b) k = hasUpdateAt m k := by
  simp only [badgeStep, hu, ite_self]
  rw [hasNewAt_ensureKey, hasNewAt_ensureKey, hasUpdateAt_ensureKey, hasUpdateAt_ensureKey]
  exact ⟨rfl, rfl⟩

/-- Single benefit of the spec's concrete badge example: recent, tagged
`NEW`, in category `FREE`. -/
def exNewBenefit : Benefit :=
  { baseBenefit with
    category := .FREE
    lastUpdated := some "2024.5.1"
    updateType := some .NEW }

/-- A concrete current moment under which `exNewBenefit` is recent: local
midnight of 2024-05-01. -/
def exNowMs : Int := 19844 * msPerDay

/-- Claim C3: the badge aggregator returns the empty mapping on the empty
list; every recent benefit tagged `NEW` makes `hasNew` true for its own
category and for `ALL`; every recent benefit tagged `UPDATE` makes
`hasUpdate` true for both; a benefit with no update tag leaves every flag
of the accumulated mapping exactly as it was; and on the single recent
`NEW` benefit in category `FREE` the result maps `FREE` and `ALL` to
hasNew true, hasUpdate false, in that insertion order. -/
theorem computeCategoryBadges_spec :
    (∀ now : Int, computeCategoryBadges [] now = []) ∧
    (∀ (l : List Benefit) (now : Int) (b : Benefit), b ∈ l →
        isRecentUpdate b.lastUpdated now = true → b.updateType = some .NEW →
        hasNewAt (computeCategoryBadges l now) b.category = true ∧
        hasNewAt (computeCategoryBadges l now) .ALL = true) ∧
    (∀ (l : List Benefit) (now : Int) (b : Benefit), b ∈ l →
        isRecentUpdate b.lastUpdated now = true → b.updateType = some .UPDATE →
        hasUpdateAt (computeCategoryBadges l now) b.category = true ∧
        hasUpdateAt (computeCategoryBadges l now) .ALL = true) ∧
    (∀ (now : Int) (m : BadgeMap) (b : Benefit) (k : CategoryType),
        b.updateType = none →
        hasNewAt (badgeStep now m b) k = hasNewAt m k ∧
        hasUpdateAt (badgeStep now m b) k = hasUpdateAt m k) ∧
    computeCategoryBadges [exNewBenefit] exNowMs =
      [(.FREE, ⟨true, false⟩), (.ALL, ⟨true, false⟩)] := by
  refine ⟨fun _ => rfl, ?_, ?_, ?_, ?_⟩
  · intro l now b hb hr hu
    exact foldl_new_of_mem now l [] b hb hr hu
  · intro l now b hb hr hu
    exact foldl_update_of_mem now l [] b hb hr hu
  · intro now m b k hu
    exact badgeStep_noType now m b k hu
  · decide

theorem computeCategoryBadges_spec_witness :
    (exNewBenefit ∈ [exNewBenefit] ∧
      isRecentUpdate exNewBenefit.lastUpdated exNowMs = true ∧
      exNewBenefit.updateType = some .NEW) ∧
    hasNewAt (computeCategoryBadges [exNewBenefit] exNowMs) exNewBenefit.category = true ∧
    hasNewAt (computeCategoryBadges [exNewBenefit] exNowMs) .ALL = true :=
  ⟨⟨by decide, by decide, by decide⟩,
    (computeCategoryBadges_spec.2.1 [exNewBenefit] exNowMs exNewBenefit
        (by decide) (by decide) (by decide)).1,
    (computeCategoryBadges_spec.2.1 [exNewBenefit] exNowMs exNewBenefit
        (by decide) (by decide) (by decide)).2⟩

/-- Claim C8: within one aggregation pass the badge flags only ever
transition from false to true — a flag true in the accumulator stays true
after each per-benefit step, and hence after the rest of the fold. -/
theorem badgeFlags_monotone :
    (∀ (now : Int) (m : BadgeMap) (b : Benefit) (k : CategoryType),
        (hasNewAt m k = true → hasNewAt (badgeStep now m b) k = true) ∧
        (hasUpdateAt m k = true → hasUpdateAt (badgeStep now m b) k = true)) ∧
    (∀ (now : Int) (l : List Benefit) (m : BadgeMap) (k : CategoryType),
        (hasNewAt m k = true → hasNewAt (l.foldl (badgeStep now) m) k = true) ∧
        (hasUpdateAt m k = true → hasUpdateAt (l.foldl (badgeStep now) m) k = true)) := by
  constructor
  · intro now m b k
    exact ⟨badgeStep_mono_new now m b k, badgeStep_mono_update now m b k⟩
  · intro now l m k
    exact ⟨foldl_badgeStep_mono_new now l m k, foldl_badgeStep_mono_update now l m k⟩

theorem badgeFlags_monotone_witness :
    hasNewAt [(CategoryType.FREE, ⟨true, false⟩)] .FREE = true ∧
    hasNewAt (badgeStep 0 [(CategoryType.FREE, ⟨true, false⟩)] baseBenefit) .FREE = true :=
  ⟨by decide,
    (badgeFlags_monotone.1 0 [(CategoryType.FREE, ⟨true, false⟩)] baseBenefit .FREE).1
      (by decide)⟩

/-! ### Benefit filter: claim C4 -/

/-- Benefit of the spec's concrete filter example for the 서울 region. -/
def exSeoul : Benefit :=
  { baseBenefit with
    title := "서울 지원금"
    regionTarget := some "서울" }

/-- Benefit of the spec's concrete filter example for the 부산 region. -/
def exBusan : Benefit :=
  { baseBenefit with
    title := "부산 지원금"
    regionTarget := some "부산" }

example : filteredBenefits [exSeoul, exBusan] "서울" "" = [exSeoul] := by decide

lemma optIncludes_eq_true {region : Option String} {needle : List Char}
    (h : optIncludes region needle = true) :
    ∃ r, region = some r ∧ containsSub r.data needle = true := by
  cases region with
  | none => exact Bool.noConfusion h
  | some r => exact ⟨r, rfl, h⟩

/-- Claim C4: with an active (non-sentinel) province filter and any
free-text query, the filter keeps a benefit exactly when its region
contains the province token (an absent region never matches) and, whenever
the trimmed query is nonempty, the query occurs in the title, the
description, or the region; the stages compose by conjunction and the
output is a sublist of the input, preserving relative order. -/
theorem filteredBenefits_spec (l : List Benefit) (sel q : String) (b : Benefit)
    (hsel : sel ≠ "전체") :
    (b ∈ filteredBenefits l sel q ↔
      b ∈ l ∧
      (∃ r, b.regionTarget = some r ∧ containsSub r.data sel.data = true) ∧
      (jsTrimL q.data ≠ [] →
        (containsSub b.title.data (jsTrimL q.data) = true ∨
         containsSub b.description.data (jsTrimL q.data) = true ∨
         ∃ r, b.regionTarget = some r ∧ containsSub r.data (jsTrimL q.data) = true))) ∧
    (filteredBenefits l sel q).Sublist l := by
  constructor
  · rw [filteredBenefits, List.mem_filter]
    constructor
    · rintro ⟨hmem, hcond⟩
      rw [Bool.and_eq_true] at hcond
      obtain ⟨hs, hq⟩ := hcond
      refine ⟨hmem, ?_, ?_⟩
      · rw [sidoOk, if_neg hsel] at hs
        exact optIncludes_eq_true hs
      · intro hq0
        simp only [queryOk] at hq
        rw [if_neg hq0] at hq
        rw [Bool.or_eq_true, Bool.or_eq_true] at hq
        rcases hq with (h1 | h2) | h3
        · exact Or.inl h1
        · exact Or.inr (Or.inl h2)
        · exact Or.inr (Or.inr (optIncludes_eq_true h3))
    · rintro ⟨hmem, ⟨r, hr, hcont⟩, hquery⟩
      refine ⟨hmem, ?_⟩
      rw [Bool.and_eq_true]
      constructor
      · rw [sidoOk, if_neg hsel, hr]
        exact hcont
      · simp only [queryOk]
        by_cases hq0 : jsTrimL q.data = []
        · rw [if_pos hq0]
        · rw [if_neg hq0]
          rcases hquery hq0 with h1 | h2 | ⟨r2, hr2, h3⟩
          · simp [h1]
          · simp [h2]
          · rw [hr2]
            simp [optIncludes, h3]
  · exact List.filter_sublist l

theorem filteredBenefits_spec_witness :
    (("서울" : String) ≠ "전체") ∧
    (exSeoul ∈ filteredBenefits [exSeoul, exBusan] "서울" "" ↔
      exSeoul ∈ [exSeoul, exBusan] ∧
      (∃ r, exSeoul.regionTarget = some r ∧
        containsSub r.data ("서울" : String).data = true) ∧
      (jsTrimL ("" : String).data ≠ [] →
        (containsSub exSeoul.title.data (jsTrimL ("" : String).data) = true ∨
         containsSub exSeoul.description.data (jsTrimL ("" : String).data) = true ∨
         ∃ r, exSeoul.regionTarget = some r ∧
           containsSub r.data (jsTrimL ("" : String).data) = true))) ∧
    (filteredBenefits [exSeoul, exBusan] "서울" "").Sublist [exSeoul, exBusan] :=
  ⟨by decide,
    (filteredBenefits_spec [exSeoul, exBusan] "서울" "" exSeoul (by decide)).1,
    (filteredBenefits_spec [exSeoul, exBusan] "서울" "" exSeoul (by decide)).2⟩

/-! ### Envy sort: claims C5 and C9 -/

lemma filter_orderedInsert_pos (v : Int) (a : Benefit) (l : List Benefit)
    (ha : envyKey a = v) :
    (List.orderedInsert envyGe a l).filter (fun b => decide (envyKey b = v)) =
      a :: l.filter (fun b => decide (envyKey b = v)) := by
  induction l with
  | nil => simp [List.orderedInsert, ha]
  | cons b bs ih =>
    rw [List.orderedInsert]
    by_cases h : envyGe a b
    · rw [if_pos h]
      simp [List.filter_cons, ha]
    · rw [if_neg h]
      have hb : ¬ (envyKey b = v) := fun he => h (le_of_eq (he.trans ha.symm))
      have hdb : decide (envyKey b = v) = false := decide_eq_false_iff_not.mpr hb
      rw [List.filter_cons, List.filter_cons, hdb, ih]
      simp

lemma filter_orderedInsert_neg (v : Int) (a : Benefit) (l : List Benefit)
    (ha : ¬ envyKey a = v) :
    (List.orderedInsert envyGe a l).filter (fun b => decide (envyKey b = v)) =
      l.filter (fun b => decide (envyKey b = v)) := by
  induction l with
  | nil => simp [List.orderedInsert, ha]
  | cons b bs ih =>
    rw [List.orderedInsert]
    by_cases h : envyGe a b
    · rw [if_pos h]
      have hda : decide (envyKey a = v) = false := decide_eq_false_iff_not.mpr ha
      rw [List.filter_cons, hda]
      simp
    · rw [if_neg h]
      rw [List.filter_cons, List.filter_cons, ih]

lemma filter_insertionSort_envy (v : Int) :
    ∀ l : List Benefit,
      (List.insertionSort envyGe l).filter (fun b => decide (envyKey b = v)) =
        l.filter (fun b => decide (envyKey b = v)) := by
  intro l
  induction l with
  | nil => rfl
  | cons a bs ih =>
    rw [List.insertionSort]
    by_cases ha : envyKey a = v
    · rw [filter_orderedInsert_pos v a _ ha, ih, List.filter_cons]
      simp [ha]
    · rw [filter_orderedInsert_neg v a _ ha, ih, List.filter_cons]
      simp [ha]

/-- First benefit of the spec's concrete envy-sort example. -/
def exEnvy1 : Benefit :=
  { baseBenefit with
    id := "1"
    envyCount := some 5 }

/-- Second benefit of the spec's concrete envy-sort example. -/
def exEnvy2 : Benefit :=
  { baseBenefit with
    id := "2"
    envyCount := some 9 }

/-- Third benefit of the spec's concrete envy-sort example. -/
def exEnvy3 : Benefit :=
  { baseBenefit with
    id := "3"
    envyCount := some 9 }

/-- Claim C5: envy-mode display is a permutation of the filtered list,
sorted descending by the envy count with a missing count treated as zero,
and stable — for every key value, the benefits carrying that key appear in
their original relative order, expressed through filters being preserved;
on the spec's three-element example the resulting id order is 2, 3, 1. -/
theorem displayBenefits_envy_spec :
    (∀ l : List Benefit, List.Perm (displayBenefits .ENVY l) l) ∧
    (∀ l : List Benefit, List.Sorted envyGe (displayBenefits .ENVY l)) ∧
    (∀ (l : List Benefit) (v : Int),
        (displayBenefits .ENVY l).filter (fun b => decide (envyKey b = v)) =
          l.filter (fun b => decide (envyKey b = v))) ∧
    (displayBenefits .ENVY [exEnvy1, exEnvy2, exEnvy3]).map Benefit.id =
      ["2", "3", "1"] := by
  refine ⟨?_, ?_, ?_, by decide⟩
  · intro l
    exact List.perm_insertionSort envyGe l
  · intro l
    exact List.sorted_insertionSort envyGe l
  · intro l v
    exact filter_insertionSort_envy v l

/-- Concrete heap for the frame property: one allocated array at address
zero holding the example list. -/
def exHeap : ArrayHeap :=
  ⟨fun n => if n = 0 then [exEnvy1, exEnvy2, exEnvy3] else [], 1⟩

/-- Claim C9: the envy branch sorts a spread copy in place; every array
allocated before the sort — the source in particular — is unchanged
afterwards, and the returned fresh array holds the stably sorted
contents of the source. -/
theorem displayBenefitsEnvy_frame (h : ArrayHeap) (src : Nat) :
    (∀ a, a < h.next →
        heapRead (displayBenefitsEnvy h src).1 a = heapRead h a) ∧
    heapRead (displayBenefitsEnvy h src).1 (displayBenefitsEnvy h src).2 =
      List.insertionSort envyGe (heapRead h src) := by
  constructor
  · intro a ha
    have hne : a ≠ h.next := Nat.ne_of_lt ha
    simp [displayBenefitsEnvy, spreadAlloc, sortInPlaceEnvy, heapWrite, heapRead, hne]
  · simp [displayBenefitsEnvy, spreadAlloc, sortInPlaceEnvy, heapWrite, heapRead]

theorem displayBenefitsEnvy_frame_witness :
    ((0 : Nat) < exHeap.next ∧
      heapRead (displayBenefitsEnvy exHeap 0).1 0 = heapRead exHeap 0) ∧
    heapRead (displayBenefitsEnvy exHeap 0).1 (displayBenefitsEnvy exHeap 0).2 =
      List.insertionSort envyGe (heapRead exHeap 0) :=
  ⟨⟨by decide, (displayBenefitsEnvy_frame exHeap 0).1 0 (by decide)⟩,
    (displayBenefitsEnvy_frame exHeap 0).2⟩
